import Mathlib

/-
Verification of the rust-ffplay pipeline core.

Shallow embedding of the relevant parts of the source:
  - src/main.rs            (Presenter loop, pixel-format mapper)
  - src/file_decoder.rs    (FileDecoder controller, Demuxer thread, Decoder thread)

Machine integers are modelled as Nat / Int with explicit two's-complement
casts where the source performs `as u64` / `as i64` conversions; the
unchecked u64 subtraction in the decoder is modelled as an Option (a Rust
debug build panics on underflow).  Channels are modelled as FIFO lists,
queues as lists, and calls into the opaque codec backend as an explicit
action trace.
-/

/-- Modulus of the u64 machine integer type. -/
def U64_MOD : Nat := 2 ^ 64

/-- Rust `as u64` cast applied to an i64 value: two's-complement wrap. -/
def i64_to_u64 (x : Int) : Nat := (x % (U64_MOD : Int)).toNat

/-- Rust `as i64` cast applied to a u64 value: two's-complement wrap. -/
def u64_to_i64 (n : Nat) : Int :=
  if n < 2 ^ 63 then (n : Int) else (n : Int) - (U64_MOD : Int)

/-- Unchecked u64 subtraction `a - b` as written in the source
(`frame_time - prev_time`): a debug build panics on underflow, so the
underflowing case is modelled as `none`. -/
def u64_sub (a b : Nat) : Option Nat := if b ≤ a then some (a - b) else none

/-- An ffmpeg `Rational` time base (numerator, denominator). -/
structure Rational where
  num : Int
  den : Int
deriving DecidableEq

/-- ffmpeg `AV_TIME_BASE_Q`, the backend's internal reference time base
(`rescale::TIME_BASE` in the source). -/
def TIME_BASE : Rational := ⟨1, 1000000⟩

/-- Truncation of the rational number n / d toward zero. -/
def roundTowardZero (n d : Int) : Int :=
  n.sign * d.sign * ((n.natAbs / d.natAbs : Nat) : Int)

/-- ffmpeg `v.rescale_with(src, dst, Rounding::Zero)`:
`av_rescale_q_rnd` with `AV_ROUND_ZERO`, i.e.
v * src.num * dst.den / (src.den * dst.num) with the division truncated
toward zero (`Int.tdiv`). -/
def rescale_with (v : Int) (src dst : Rational) : Int :=
  Int.tdiv (v * src.num * dst.den) (src.den * dst.num)

/-- Truncated integer division is exactly rounding toward zero. -/
theorem tdiv_eq_roundTowardZero (a b : Int) : a.tdiv b = roundTowardZero a b := by
  unfold roundTowardZero
  cases a with
  | ofNat m =>
    cases b with
    | ofNat n =>
      cases m with
      | zero => simp [Int.tdiv]
      | succ k =>
        cases n with
        | zero => simp [Int.tdiv]
        | succ j =>
          simp [Int.tdiv, Int.sign]
          rw [abs_of_nonneg (by positivity : (0 : ℤ) ≤ (k : ℤ) + 1),
            abs_of_nonneg (by positivity : (0 : ℤ) ≤ (j : ℤ) + 1)]
    | negSucc n =>
      cases m with
      | zero => simp [Int.tdiv]
      | succ k =>
        simp [Int.tdiv, Int.sign]
        rw [abs_of_nonneg (by positivity : (0 : ℤ) ≤ (k : ℤ) + 1)]
  | negSucc m =>
    cases b with
    | ofNat n =>
      cases n with
      | zero => simp [Int.tdiv]
      | succ j =>
        simp [Int.tdiv, Int.sign]
        rw [abs_of_nonneg (by positivity : (0 : ℤ) ≤ (j : ℤ) + 1)]
    | negSucc n => simp [Int.tdiv, Int.sign]

/-- Representative constructors of ffmpeg's `format::Pixel` enum (the full
enum has many more formats; all of them fall into the default arm of the
mapper, so a finite sample with at least one extra format is faithful). -/
inductive Pixel
  | YUV420P
  | YUYV422
  | UYVY422
  | RGB24
  | NV12
  | YUV422P
  | GRAY8
deriving DecidableEq

/-- SDL2 `PixelFormatEnum` values relevant to the mapper. -/
inductive PixelFormatEnum
  | IYUV
  | YUY2
  | UYVY
  | RGB24
  | Unknown
deriving DecidableEq

/-- Embedding of `av_to_sdl_pixel_format_mapper` (src/main.rs lines 138-145). -/
def av_to_sdl_pixel_format_mapper : Pixel → PixelFormatEnum
  | .YUV420P => .IYUV
  | .YUYV422 => .YUY2
  | .UYVY422 => .UYVY
  | _ => .Unknown

/-- Envelope pushed to the frame queue by the decoder thread
(`VideoData` in src/file_decoder.rs; the opaque pixel payload
`video_frame` is omitted). -/
structure VideoData where
  serial : Nat
  frame_time : Nat
  diff_to_prev_frame : Nat
deriving DecidableEq

/-- Envelope pulled from the packet queue by the decoder thread
(`PacketData` in src/file_decoder.rs; the packet payload is an opaque id). -/
structure PacketData where
  serial : Nat
  packet : Nat
deriving DecidableEq

/-- The decoder's rescale of a frame timestamp to milliseconds
(src/file_decoder.rs lines 372-377):
`decoded.timestamp().unwrap_or(0).rescale_with(time_base, Rational(1, 1000), Rounding::Zero) as u64`. -/
def frame_time_ms (timestamp : Option Int) (tb : Rational) : Nat :=
  i64_to_u64 (rescale_with (timestamp.getD 0) tb ⟨1, 1000⟩)

/-- Timing part of `receive_and_process_decoded_frame` on a delivered frame
(src/file_decoder.rs lines 372-384): compute `frame_time`, compute
`frame_diff` (0 when no previous frame time exists, otherwise the unchecked
u64 subtraction `frame_time - prev_time`), and update `last_frame_time`.
Returns the produced envelope and the new `last_frame_time`; `none` models
the underflow panic of the subtraction. -/
def process_decoded_frame (current_serial : Nat) (tb : Rational)
    (last_frame_time : Option Nat) (timestamp : Option Int) :
    Option (VideoData × Nat) :=
  let ft := frame_time_ms timestamp tb
  match last_frame_time with
  | none => some (⟨current_serial, ft, 0⟩, ft)
  | some prev => (u64_sub ft prev).map fun d => (⟨current_serial, ft, d⟩, ft)

/-- Calls the decoder thread makes into the opaque codec backend. -/
inductive CodecAction
  | flush
  | submit (packet : Nat)
  | sendEof
deriving DecidableEq

/-- Result of `decoder.receive_frame` as observed by the decoder thread. -/
inductive RecvStatus
  | frame (timestamp : Option Int)
  | eof
  | other (errno : Int)
  | otherKind
deriving DecidableEq

/-- The `ffmpeg_next::util::error::EAGAIN` errno value. -/
def EAGAIN : Int := 11

/-- Reasons the decoder thread dies (both an `Err` return and an `unwrap`
panic surface to the controller through the thread's join result). -/
inductive DecodeErr
  | ffmpeg (errno : Option Int)
  | underflow
deriving DecidableEq

/-- Local state of the decoder thread (src/file_decoder.rs: `DecoderData`
plus the closure-captured `sent_eof` / `last_frame_time`; the frame queue
is the list of enqueued items, `none` being the EOS sentinel, and `codec`
is the trace of calls into the codec backend). -/
structure DecoderState where
  seek_serial : Nat
  sent_eof : Bool
  last_frame_time : Option Nat
  video_queue : List (Option VideoData)
  codec : List CodecAction
  time_base : Rational
deriving DecidableEq

/-- Outcome of one iteration of the `'decoding` loop. -/
inductive StepResult
  | next (s : DecoderState)
  | done (s : DecoderState)
  | fatal (s : DecoderState) (e : DecodeErr)
deriving DecidableEq

/-- State carried by a step outcome. -/
def StepResult.state : StepResult → DecoderState
  | .next s => s
  | .done s => s
  | .fatal s _ => s

/-- Embedding of `receive_and_process_decoded_frame` followed by the
`.unwrap()` and the `is_eof` check at its call site (src/file_decoder.rs
lines 336-406 and 443-453): EOF from the backend enqueues the EOS sentinel
and ends the loop; EAGAIN continues the loop; any other backend error is
fatal; a delivered frame is timed, enqueued, and the loop ends only when
the controller has released the running flag (`runningGone`).  A delivered
frame is taken to have been scaled successfully (scaler failures are
outside the claims about the backend's receive results). -/
def receive_and_process (s : DecoderState) (recv : RecvStatus) (runningGone : Bool) :
    StepResult :=
  match recv with
  | .eof => .done { s with video_queue := s.video_queue ++ [none] }
  | .other errno =>
    if errno = EAGAIN then .next s else .fatal s (.ffmpeg (some errno))
  | .otherKind => .fatal s (.ffmpeg none)
  | .frame ts =>
    match process_decoded_frame s.seek_serial s.time_base s.last_frame_time ts with
    | none => .fatal s .underflow
    | some (vd, ft) =>
      let s' := { s with last_frame_time := some ft,
                         video_queue := s.video_queue ++ [some vd] }
      if runningGone then .done s' else .next s'

/-- Non-blocking poll of the decoder's serial channel (src/file_decoder.rs
lines 408-417): on a received serial, set `seek_serial`, clear `sent_eof`,
flush the backend decoder, clear the frame queue, reset `last_frame_time`. -/
def decoder_poll_serial (s : DecoderState) (msg : Option Nat) : DecoderState :=
  match msg with
  | none => s
  | some v =>
    { s with seek_serial := v, sent_eof := false,
             codec := s.codec ++ [CodecAction.flush],
             video_queue := [], last_frame_time := none }

/-- One iteration of the `'decoding` loop (src/file_decoder.rs lines
408-453): poll the serial channel; unless EOF was already sent, take one
item from the packet queue (`item`, `none` being the EOS sentinel) —
a packet with a stale serial is discarded (`continue 'decoding`), a
current one is submitted to the backend; then receive/process one frame. -/
def decoder_step (s : DecoderState) (msg : Option Nat) (item : Option PacketData)
    (recv : RecvStatus) (runningGone : Bool) : StepResult :=
  let s := decoder_poll_serial s msg
  if s.sent_eof then receive_and_process s recv runningGone
  else
    match item with
    | some pd =>
      if s.seek_serial ≠ pd.serial then .next s
      else
        receive_and_process
          { s with codec := s.codec ++ [CodecAction.submit pd.packet] } recv runningGone
    | none =>
      receive_and_process
        { s with sent_eof := true, codec := s.codec ++ [CodecAction.sendEof] }
        recv runningGone

/-- The decoder thread's loop over a list of per-iteration observations;
the `Except` value is the thread's join result. -/
def decoder_run (s : DecoderState) :
    List (Option Nat × Option PacketData × RecvStatus × Bool) →
    Except DecodeErr DecoderState
  | [] => .ok s
  | (msg, item, recv, rg) :: rest =>
    match decoder_step s msg item recv rg with
    | .next s' => decoder_run s' rest
    | .done s' => .ok s'
    | .fatal _ e => .error e

/-- Frames emitted by the decoder while processing a list of delivered
frame timestamps within one epoch (each delivered frame goes through
`process_decoded_frame`; `none` models the underflow panic aborting the
thread). -/
def emit_frames (serial : Nat) (tb : Rational) (last : Option Nat) :
    List (Option Int) → Option (List VideoData)
  | [] => some []
  | ts :: rest =>
    match process_decoded_frame serial tb last ts with
    | none => none
    | some (vd, ft) => (emit_frames serial tb (some ft) rest).map (vd :: ·)

/-- Commands the controller (Presenter side) sends on the four
single-producer/single-consumer channels of `FileDecoder`. -/
inductive Send
  | demuxerSeek (v : Int)
  | demuxerSerial (v : Nat)
  | demuxerPause (b : Bool)
  | decoderSerial (v : Nat)
deriving DecidableEq

/-- Controller-visible state of `FileDecoder` (the `seek_serial` and
`paused` fields; queues, threads and channel endpoints are modelled
separately). -/
structure FileDecoderCtl where
  seek_serial : Nat
  paused : Bool
deriving DecidableEq

/-- Embedding of `FileDecoder::seek` (src/file_decoder.rs lines 491-509):
send `seek_to` on the demuxer seek channel, increment `seek_serial`, send
it on the demuxer serial channel, then on the decoder serial channel, and
return it.  The channel sends are returned in program order. -/
def FileDecoder.seek (c : FileDecoderCtl) (seek_to : Int) :
    FileDecoderCtl × Nat × List Send :=
  (⟨c.seek_serial + 1, c.paused⟩, c.seek_serial + 1,
   [.demuxerSeek seek_to, .demuxerSerial (c.seek_serial + 1),
    .decoderSerial (c.seek_serial + 1)])

/-- Embedding of `FileDecoder::set_paused` (src/file_decoder.rs lines
511-519): record the flag and send it on the demuxer pause channel. -/
def FileDecoder.set_paused (c : FileDecoderCtl) (paused : Bool) :
    FileDecoderCtl × List Send :=
  (⟨c.seek_serial, paused⟩, [.demuxerPause paused])

/-- Local state of the demuxer thread (`DemuxerData` fields the command
handling touches). -/
structure DemuxerState where
  seek_serial : Nat
  paused : Bool
deriving DecidableEq

/-- The demuxer's three command channels, as FIFO lists. -/
structure DemuxChannels where
  pauseCh : List Bool
  seekCh : List Int
  serialCh : List Nat
deriving DecidableEq

/-- Externally visible actions of one demuxer iteration. -/
inductive DemuxAction
  | backendSeek (target : Int)
  | clearPacketQueue
  | enqueuePacket (serial : Nat) (packet : Nat)
  | enqueueEos
deriving DecidableEq

/-- Command-polling prefix of one `'demuxing` iteration (src/file_decoder.rs
lines 247-285): non-blocking poll of the pause channel, then of the seek
channel; only when a seek target arrived is the serial channel polled,
after which the target is rescaled to the backend reference time base with
`Rounding::Zero`, the backend seeks (to 0, then to the target), and the
packet queue is cleared. -/
def demuxer_poll_commands (d : DemuxerState) (ch : DemuxChannels) (tb : Rational) :
    DemuxerState × DemuxChannels × List DemuxAction :=
  let p :=
    match ch.pauseCh with
    | [] => (d, ch)
    | b :: rest => ({ d with paused := b }, { ch with pauseCh := rest })
  match p.2.seekCh with
  | [] => (p.1, p.2, [])
  | t :: ts =>
    let ch' := { p.2 with seekCh := ts }
    let q :=
      match ch'.serialCh with
      | [] => (p.1, ch')
      | v :: vs => ({ p.1 with seek_serial := v }, { ch' with serialCh := vs })
    let seek_to := rescale_with t tb TIME_BASE
    (q.1, q.2, [.backendSeek 0, .backendSeek seek_to, .clearPacketQueue])

/-- Packet-reading body of one `'demuxing` iteration (src/file_decoder.rs
lines 286-307): when not paused, read the next container packet (`none`
meaning no more packets), enqueue it tagged with the current serial if it
belongs to the selected stream, or enqueue the EOS sentinel; when paused,
sleep instead. -/
def demuxer_body (d : DemuxerState) (stream_index : Nat)
    (next : Option (Nat × Nat)) : List DemuxAction :=
  if d.paused = false then
    match next with
    | some (idx, pkt) =>
      if idx = stream_index then [.enqueuePacket d.seek_serial pkt] else []
    | none => [.enqueueEos]
  else []

/-- Input events after `event_transform` (src/main.rs `EventState`). -/
inductive EventState
  | Quit
  | Pause
  | SeekForward
  | SeekBackward
  | Resize
deriving DecidableEq

/-- The `seek_secs` constant of the presenter loop (src/main.rs line 249). -/
def seek_secs : Int := 20000

/-- Local state of the presenter loop (src/main.rs lines 243-248 plus the
controller-visible `FileDecoder` state behind `player`). -/
structure PresenterState where
  paused : Bool
  need_update : Bool
  presentation_time : Nat
  last_pts : Nat
  seek_serial : Nat
  player : FileDecoderCtl
  video_data_item : Option VideoData
deriving DecidableEq

/-- Observable effects of one presenter iteration. -/
structure StepOut where
  drawn : Option VideoData
  slept : Bool
  quit : Bool
  blocked : Bool
  sends : List Send
deriving DecidableEq

/-- Seek handling shared by the SeekBackward / SeekForward arms
(src/main.rs lines 263-280): `last_pts` becomes the target cast back to
u64, `player.seek` is invoked and its returned serial stored, and
`need_update` is set. -/
def presenter_handle_seek (s : PresenterState) (seek_to : Int) :
    PresenterState × StepOut :=
  let r := FileDecoder.seek s.player seek_to
  ({ s with last_pts := i64_to_u64 seek_to, seek_serial := r.2.1,
            player := r.1, need_update := true },
   ⟨none, false, false, false, r.2.2⟩)

/-- Frame handling of one presenter iteration (src/main.rs lines 287-381):
nothing happens while paused without `need_update`; otherwise the pending
item or the head of the frame queue is consumed (EOS breaks the loop;
an empty queue would block the take); a frame whose serial equals
`seek_serial` updates `last_pts`, sleeps when its target instant
`presentation_time + diff_to_prev_frame` is still in the future, advances
`presentation_time`, is drawn, and clears `need_update`; a stale frame is
dropped with no draw and no sleep. -/
def presenter_present (s : PresenterState) (vd : VideoData)
    (queue : List (Option VideoData)) (now : Nat) :
    PresenterState × List (Option VideoData) × StepOut :=
  if vd.serial = s.seek_serial then
    ({ s with last_pts := vd.frame_time,
              presentation_time := s.presentation_time + vd.diff_to_prev_frame,
              need_update := false, video_data_item := none },
     queue,
     ⟨some vd, decide (now < s.presentation_time + vd.diff_to_prev_frame),
      false, false, []⟩)
  else
    ({ s with video_data_item := none }, queue, ⟨none, false, false, false, []⟩)

/-- Frame phase of one presenter iteration; see `presenter_present`. -/
def presenter_frame_phase (s : PresenterState) (queue : List (Option VideoData))
    (now : Nat) : PresenterState × List (Option VideoData) × StepOut :=
  if s.paused ∧ ¬ s.need_update then (s, queue, ⟨none, false, false, false, []⟩)
  else
    match s.video_data_item, queue with
    | none, [] => (s, [], ⟨none, false, false, true, []⟩)
    | none, none :: rest => (s, rest, ⟨none, false, true, false, []⟩)
    | none, some vd :: rest => presenter_present s vd rest now
    | some vd, q => presenter_present { s with video_data_item := none } vd q now

/-- One iteration of the presenter's `'running` loop (src/main.rs lines
250-382): handle at most one transformed input event — Quit breaks the
loop; Pause toggles `paused`, resetting `presentation_time` to now on
unpause, and continues; the seek arms compute
`last_pts as i64 ± seek_secs`, seek, and continue; Resize (after the
viewport update, which has no modelled state) and the no-event case fall
through to the frame phase. -/
def presenter_step (s : PresenterState) (ev : Option EventState) (now : Nat)
    (queue : List (Option VideoData)) :
    PresenterState × List (Option VideoData) × StepOut :=
  match ev with
  | some .Quit => (s, queue, ⟨none, false, true, false, []⟩)
  | some .Pause =>
    let pt := if s.paused then now else s.presentation_time
    ({ s with paused := ¬ s.paused, presentation_time := pt }, queue,
     ⟨none, false, false, false, []⟩)
  | some .SeekBackward =>
    let r := presenter_handle_seek s (u64_to_i64 s.last_pts - seek_secs)
    (r.1, queue, r.2)
  | some .SeekForward =>
    let r := presenter_handle_seek s (u64_to_i64 s.last_pts + seek_secs)
    (r.1, queue, r.2)
  | some .Resize => presenter_frame_phase s queue now
  | none => presenter_frame_phase s queue now

/-- The presenter loop over a list of per-iteration inputs (the optional
transformed event and the current instant), threading the frame queue;
returns the list of drawn frames in order. -/
def presenter_run (s : PresenterState) (queue : List (Option VideoData)) :
    List (Option EventState × Nat) → List VideoData
  | [] => []
  | (ev, now) :: rest =>
    let r := presenter_step s ev now queue
    (match r.2.2.drawn with | some f => [f] | none => []) ++
      (if r.2.2.quit then [] else presenter_run r.1 r.2.1 rest)

theorem receive_and_process_codec (s : DecoderState) (recv : RecvStatus) (rg : Bool) :
    (receive_and_process s recv rg).state.codec = s.codec := by
  unfold receive_and_process
  cases recv with
  | eof => rfl
  | other errno =>
    by_cases he : errno = EAGAIN <;> simp [he, StepResult.state]
  | otherKind => rfl
  | frame ts =>
    cases hp : process_decoded_frame s.seek_serial s.time_base s.last_frame_time ts with
    | none => simp [hp, StepResult.state]
    | some p => cases rg <;> simp [hp, StepResult.state]

/-- C3: when the Decoder observes a serial on its epoch channel it sets
`seek_serial` to the received value, clears `sent_eof`, flushes the codec
backend's decoder, clears the frame queue, and resets `last_frame_time`
to none; and the loop iteration is exactly the iteration of that reset
state with no pending serial, so all of it happens before the next item
is taken from the packet queue. -/
theorem C3_epoch_reset (s : DecoderState) (v : Nat) (item : Option PacketData)
    (recv : RecvStatus) (rg : Bool) :
    decoder_poll_serial s (some v) =
      { s with seek_serial := v, sent_eof := false,
               codec := s.codec ++ [CodecAction.flush],
               video_queue := [], last_frame_time := none } ∧
    decoder_step s (some v) item recv rg =
      decoder_step (decoder_poll_serial s (some v)) none item recv rg :=
  ⟨rfl, rfl⟩

/-- C4: a packet envelope taken from the packet queue whose serial differs
from the Decoder's current serial is discarded — the iteration continues
with the state unchanged and nothing is submitted to the codec backend —
while a matching packet is submitted to the backend. -/
theorem C4_packet_serial_filter (s : DecoderState) (pd : PacketData)
    (recv : RecvStatus) (rg : Bool) (h : s.sent_eof = false) :
    (s.seek_serial ≠ pd.serial →
      decoder_step s none (some pd) recv rg = .next s) ∧
    (s.seek_serial = pd.serial →
      (decoder_step s none (some pd) recv rg).state.codec =
        s.codec ++ [CodecAction.submit pd.packet]) := by
  constructor
  · intro hne
    simp [decoder_step, decoder_poll_serial, h, hne]
  · intro heq
    simp only [decoder_step, decoder_poll_serial, h, heq, Bool.false_eq_true,
      if_false, ne_eq, not_true_eq_false]
    rw [receive_and_process_codec]

theorem C4_packet_serial_filter_witness :
    decoder_step ⟨0, false, none, [], [], ⟨1, 1⟩⟩ none (some ⟨1, 42⟩)
        RecvStatus.eof false =
      StepResult.next ⟨0, false, none, [], [], ⟨1, 1⟩⟩ ∧
    (decoder_step ⟨0, false, none, [], [], ⟨1, 1⟩⟩ none (some ⟨0, 42⟩)
        RecvStatus.eof false).state.codec = [CodecAction.submit 42] :=
  ⟨(C4_packet_serial_filter ⟨0, false, none, [], [], ⟨1, 1⟩⟩ ⟨1, 42⟩
      RecvStatus.eof false rfl).1 (by decide),
   (C4_packet_serial_filter ⟨0, false, none, [], [], ⟨1, 1⟩⟩ ⟨0, 42⟩
      RecvStatus.eof false rfl).2 rfl⟩

/-- C6: EAGAIN and end-of-stream results from the codec backend are
control signals — EAGAIN continues the loop unchanged, EOF enqueues the
EOS sentinel and ends the loop cleanly — while any other backend error
during decode is fatal: the step is fatal and the thread's join result is
that error. -/
theorem C6_backend_error_policy (s : DecoderState) (rg : Bool) (e : Int)
    (rest : List (Option Nat × Option PacketData × RecvStatus × Bool))
    (hs : s.sent_eof = true) (he : e ≠ EAGAIN) :
    receive_and_process s (.other EAGAIN) rg = .next s ∧
    receive_and_process s .eof rg =
      .done { s with video_queue := s.video_queue ++ [none] } ∧
    receive_and_process s (.other e) rg = .fatal s (.ffmpeg (some e)) ∧
    receive_and_process s .otherKind rg = .fatal s (.ffmpeg none) ∧
    decoder_run s ((none, none, .other e, rg) :: rest) =
      .error (.ffmpeg (some e)) ∧
    decoder_run s ((none, none, .other EAGAIN, rg) :: rest) =
      decoder_run s rest := by
  refine ⟨by simp [receive_and_process], rfl,
    by simp [receive_and_process, he], rfl, ?_, ?_⟩
  · simp [decoder_run, decoder_step, decoder_poll_serial, hs,
      receive_and_process, he]
  · simp [decoder_run, decoder_step, decoder_poll_serial, hs,
      receive_and_process]

theorem C6_backend_error_policy_witness :
    decoder_run ⟨0, true, none, [], [], ⟨1, 1⟩⟩
        [(none, none, RecvStatus.other 5, false)] =
      Except.error (DecodeErr.ffmpeg (some 5)) :=
  (C6_backend_error_policy ⟨0, true, none, [], [], ⟨1, 1⟩⟩ false 5 [] rfl
    (by decide)).2.2.2.2.1

theorem process_decoded_frame_some (serial : Nat) (tb : Rational)
    (last : Option Nat) (ts : Option Int) (vd : VideoData) (ft : Nat)
    (h : process_decoded_frame serial tb last ts = some (vd, ft)) :
    vd.frame_time = ft ∧ ft = frame_time_ms ts tb ∧
    vd.diff_to_prev_frame = (match last with | none => 0 | some p => ft - p) := by
  cases last with
  | none =>
    have hp : process_decoded_frame serial tb none ts =
        some (⟨serial, frame_time_ms ts tb, 0⟩, frame_time_ms ts tb) := rfl
    have h2 := hp.symm.trans h
    simp only [Option.some.injEq, Prod.mk.injEq] at h2
    obtain ⟨hA, hB⟩ := h2
    subst hB
    subst hA
    exact ⟨rfl, rfl, rfl⟩
  | some p =>
    by_cases hle : p ≤ frame_time_ms ts tb
    · have hp : process_decoded_frame serial tb (some p) ts =
          some (⟨serial, frame_time_ms ts tb, frame_time_ms ts tb - p⟩,
                frame_time_ms ts tb) := by
        simp [process_decoded_frame, u64_sub, hle]
      have h2 := hp.symm.trans h
      simp only [Option.some.injEq, Prod.mk.injEq] at h2
      obtain ⟨hA, hB⟩ := h2
      subst hB
      subst hA
      exact ⟨rfl, rfl, rfl⟩
    · have hp : process_decoded_frame serial tb (some p) ts = none := by
        simp [process_decoded_frame, u64_sub, hle]
      rw [hp] at h
      exact Option.noConfusion h

theorem emit_frames_total (serial : Nat) (tb : Rational) :
    ∀ (tss : List (Option Int)) (last : Option Nat),
      List.Chain' (· ≤ ·) (last.toList ++ tss.map (fun t => frame_time_ms t tb)) →
      (emit_frames serial tb last tss).isSome := by
  intro tss
  induction tss with
  | nil => intro last _; simp [emit_frames]
  | cons ts rest ih =>
    intro last hch
    have hstep : ∃ vd, process_decoded_frame serial tb last ts =
        some (vd, frame_time_ms ts tb) := by
      cases last with
      | none => exact ⟨_, rfl⟩
      | some p =>
        have hle : p ≤ frame_time_ms ts tb := by
          simp only [Option.toList, List.singleton_append, List.map_cons] at hch
          exact (List.chain'_cons.mp hch).1
        exact ⟨⟨serial, frame_time_ms ts tb, frame_time_ms ts tb - p⟩,
          by simp [process_decoded_frame, u64_sub, hle]⟩
    obtain ⟨vd, hvd⟩ := hstep
    have hch' : List.Chain' (· ≤ ·)
        ((some (frame_time_ms ts tb)).toList ++ rest.map (fun t => frame_time_ms t tb)) := by
      cases last with
      | none =>
        simp only [Option.toList, List.nil_append, List.map_cons] at hch
        simpa [Option.toList] using hch
      | some p =>
        simp only [Option.toList, List.singleton_append, List.map_cons] at hch
        simpa [Option.toList] using (List.chain'_cons.mp hch).2
    have hrec := ih (some (frame_time_ms ts tb)) hch'
    simp only [emit_frames, hvd]
    obtain ⟨l, hl⟩ := Option.isSome_iff_exists.mp hrec
    simp [hl]

/-- C10: `diff_to_prev_frame` is the unchecked u64 subtraction
`frame_time - prev_time`: whenever a frame's rescaled timestamp is below
the previous frame's in the same epoch the subtraction underflows (the
computation aborts), it is defined whenever the timestamp is at least the
previous one, and processing a whole epoch is total when the rescaled
timestamps are non-decreasing. -/
theorem C10_unchecked_subtraction (serial prev : Nat) (tb : Rational)
    (ts : Option Int) (tss : List (Option Int)) :
    (frame_time_ms ts tb < prev →
      process_decoded_frame serial tb (some prev) ts = none) ∧
    (prev ≤ frame_time_ms ts tb →
      process_decoded_frame serial tb (some prev) ts =
        some (⟨serial, frame_time_ms ts tb, frame_time_ms ts tb - prev⟩,
              frame_time_ms ts tb)) ∧
    (List.Chain' (· ≤ ·) (tss.map (fun t => frame_time_ms t tb)) →
      (emit_frames serial tb none tss).isSome) := by
  refine ⟨?_, ?_, ?_⟩
  · intro hlt
    have hnle : ¬ prev ≤ frame_time_ms ts tb := Nat.not_le.mpr hlt
    simp [process_decoded_frame, u64_sub, hnle]
  · intro hle
    simp [process_decoded_frame, u64_sub, hle]
  · intro hch
    exact emit_frames_total serial tb tss none (by simpa [Option.toList] using hch)

theorem C10_unchecked_subtraction_witness :
    process_decoded_frame 0 ⟨1, 1⟩ (some 2000) (some 1) = none ∧
    process_decoded_frame 0 ⟨1, 1⟩ (some 500) (some 1) =
      some (⟨0, frame_time_ms (some 1) ⟨1, 1⟩,
            frame_time_ms (some 1) ⟨1, 1⟩ - 500⟩, frame_time_ms (some 1) ⟨1, 1⟩) ∧
    (emit_frames 0 ⟨1, 1⟩ none [some 0, some 1]).isSome :=
  ⟨(C10_unchecked_subtraction 0 2000 ⟨1, 1⟩ (some 1) []).1 (by decide),
   (C10_unchecked_subtraction 0 500 ⟨1, 1⟩ (some 1) []).2.1 (by decide),
   (C10_unchecked_subtraction 0 0 ⟨1, 1⟩ none [some 0, some 1]).2.2 (by
     rw [List.map_cons, List.map_cons, List.map_nil, List.chain'_cons]
     exact ⟨by decide, List.chain'_singleton _⟩)⟩

theorem emit_frames_deltas (serial : Nat) (tb : Rational) :
    ∀ (tss : List (Option Int)) (last : Option Nat) (fs : List VideoData),
      emit_frames serial tb last tss = some fs →
      (∀ h0 : 0 < fs.length,
        (fs.get ⟨0, h0⟩).diff_to_prev_frame =
          (match last with
           | none => 0
           | some p => (fs.get ⟨0, h0⟩).frame_time - p)) ∧
      (∀ i (hi : i + 1 < fs.length),
        (fs.get ⟨i + 1, hi⟩).diff_to_prev_frame =
          (fs.get ⟨i + 1, hi⟩).frame_time -
            (fs.get ⟨i, Nat.lt_of_succ_lt hi⟩).frame_time) := by
  intro tss
  induction tss with
  | nil =>
    intro last fs h
    simp only [emit_frames, Option.some.injEq] at h
    subst h
    exact ⟨fun h0 => absurd h0 (by simp), fun i hi => absurd hi (by simp)⟩
  | cons ts rest ih =>
    intro last fs h
    cases hp : process_decoded_frame serial tb last ts with
    | none => rw [emit_frames, hp] at h; exact Option.noConfusion h
    | some pr =>
      obtain ⟨vd, ft⟩ := pr
      rw [emit_frames, hp] at h
      dsimp only at h
      cases he : emit_frames serial tb (some ft) rest with
      | none => rw [he] at h; exact Option.noConfusion h
      | some fs' =>
        rw [he] at h
        simp only [Option.map_some', Option.some.injEq] at h
        subst h
        obtain ⟨hft, hftm, hdiff⟩ :=
          process_decoded_frame_some serial tb last ts vd ft hp
        obtain ⟨ihHead, ihCons⟩ := ih (some ft) fs' he
        constructor
        · intro h0
          cases last with
          | none => exact hdiff
          | some p =>
            show vd.diff_to_prev_frame = vd.frame_time - p
            rw [hft]
            exact hdiff
        · intro i hi
          cases i with
          | zero =>
            have h0' : 0 < fs'.length := Nat.lt_of_succ_lt_succ hi
            show (fs'.get ⟨0, h0'⟩).diff_to_prev_frame =
              (fs'.get ⟨0, h0'⟩).frame_time - vd.frame_time
            rw [hft]
            exact ihHead h0'
          | succ j =>
            have hj : j + 1 < fs'.length := Nat.lt_of_succ_lt_succ hi
            show (fs'.get ⟨j + 1, hj⟩).diff_to_prev_frame =
              (fs'.get ⟨j + 1, hj⟩).frame_time -
                (fs'.get ⟨j, Nat.lt_of_succ_lt hj⟩).frame_time
            exact ihCons j hj

/-- C5: within an epoch, the first frame the Decoder emits has
`diff_to_prev_frame` 0 and every subsequent frame's `diff_to_prev_frame`
equals its `frame_time` minus the `frame_time` of the previous frame
emitted in the same epoch. -/
theorem C5_first_delta_zero (serial : Nat) (tb : Rational)
    (tss : List (Option Int)) (fs : List VideoData)
    (h : emit_frames serial tb none tss = some fs) :
    (∀ h0 : 0 < fs.length, (fs.get ⟨0, h0⟩).diff_to_prev_frame = 0) ∧
    (∀ i (hi : i + 1 < fs.length),
      (fs.get ⟨i + 1, hi⟩).diff_to_prev_frame =
        (fs.get ⟨i + 1, hi⟩).frame_time -
          (fs.get ⟨i, Nat.lt_of_succ_lt hi⟩).frame_time) := by
  have hd := emit_frames_deltas serial tb tss none fs h
  exact ⟨fun h0 => hd.1 h0, hd.2⟩

theorem C5_first_delta_zero_witness :
    (([⟨0, 0, 0⟩, ⟨0, 1000, 1000⟩, ⟨0, 2000, 1000⟩] : List VideoData).get
        ⟨0, by decide⟩).diff_to_prev_frame = 0 ∧
    (([⟨0, 0, 0⟩, ⟨0, 1000, 1000⟩, ⟨0, 2000, 1000⟩] : List VideoData).get
        ⟨2, by decide⟩).diff_to_prev_frame =
      (([⟨0, 0, 0⟩, ⟨0, 1000, 1000⟩, ⟨0, 2000, 1000⟩] : List VideoData).get
          ⟨2, by decide⟩).frame_time -
        (([⟨0, 0, 0⟩, ⟨0, 1000, 1000⟩, ⟨0, 2000, 1000⟩] : List VideoData).get
          ⟨1, by decide⟩).frame_time :=
  ⟨(C5_first_delta_zero 0 ⟨1, 1⟩ [some 0, some 1, some 2]
      [⟨0, 0, 0⟩, ⟨0, 1000, 1000⟩, ⟨0, 2000, 1000⟩] (by decide)).1 (by decide),
   (C5_first_delta_zero 0 ⟨1, 1⟩ [some 0, some 1, some 2]
      [⟨0, 0, 0⟩, ⟨0, 1000, 1000⟩, ⟨0, 2000, 1000⟩] (by decide)).2 1 (by decide)⟩

/-- C9 (counterexample): the claim sends every format outside the three
mapped ones to RGB24, but the mapper's default arm yields Unknown; at the
concrete input Pixel.RGB24 the mapper does not return
PixelFormatEnum.RGB24. -/
theorem C9_mapper_counterexample :
    av_to_sdl_pixel_format_mapper Pixel.RGB24 ≠ PixelFormatEnum.RGB24 := by
  decide

/-- C9 (amended): the pixel-format mapping maps planar 4:2:0 to IYUV, the
packed 4:2:2 variants to YUY2 and UYVY respectively, and every other
format to Unknown. -/
theorem C9_pixel_format_mapping :
    av_to_sdl_pixel_format_mapper .YUV420P = .IYUV ∧
    av_to_sdl_pixel_format_mapper .YUYV422 = .YUY2 ∧
    av_to_sdl_pixel_format_mapper .UYVY422 = .UYVY ∧
    ∀ p : Pixel, p ≠ .YUV420P → p ≠ .YUYV422 → p ≠ .UYVY422 →
      av_to_sdl_pixel_format_mapper p = .Unknown := by
  refine ⟨rfl, rfl, rfl, ?_⟩
  intro p h1 h2 h3
  cases p <;> simp_all [av_to_sdl_pixel_format_mapper]

theorem C9_pixel_format_mapping_witness :
    av_to_sdl_pixel_format_mapper Pixel.RGB24 = PixelFormatEnum.Unknown :=
  C9_pixel_format_mapping.2.2.2 Pixel.RGB24 (by decide) (by decide) (by decide)

/-- C8: both timestamp rescalings round toward zero — the demuxer's
rescale of the seek target to the backend reference time base and the
decoder's rescale of the frame timestamp to milliseconds each equal the
truncation toward zero of the exact rational value, and the demuxer's
seek handling uses exactly that value as the backend seek target. -/
theorem C8_rescale_rounds_toward_zero (v ts t : Int) (tb : Rational)
    (d : DemuxerState) (rest : List Int) :
    rescale_with v tb TIME_BASE =
      roundTowardZero (v * tb.num * 1000000) (tb.den * 1) ∧
    frame_time_ms (some ts) tb =
      i64_to_u64 (roundTowardZero (ts * tb.num * 1000) (tb.den * 1)) ∧
    (demuxer_poll_commands d ⟨[], t :: rest, []⟩ tb).2.2 =
      [DemuxAction.backendSeek 0,
       DemuxAction.backendSeek (roundTowardZero (t * tb.num * 1000000) (tb.den * 1)),
       DemuxAction.clearPacketQueue] := by
  refine ⟨?_, ?_, ?_⟩
  · exact tdiv_eq_roundTowardZero (v * tb.num * 1000000) (tb.den * 1)
  · show i64_to_u64 (rescale_with ts tb ⟨1, 1000⟩) = _
    rw [show rescale_with ts tb ⟨1, 1000⟩ =
        roundTowardZero (ts * tb.num * 1000) (tb.den * 1) from
      tdiv_eq_roundTowardZero (ts * tb.num * 1000) (tb.den * 1)]
  · show [DemuxAction.backendSeek 0,
      DemuxAction.backendSeek (rescale_with t tb TIME_BASE),
      DemuxAction.clearPacketQueue] = _
    rw [show rescale_with t tb TIME_BASE =
        roundTowardZero (t * tb.num * 1000000) (tb.den * 1) from
      tdiv_eq_roundTowardZero (t * tb.num * 1000000) (tb.den * 1)]

/-- C1 (counterexample): at controller serial 0 and seek target 5, the
commands of FileDecoder::seek are not sent in the claimed order (epoch to
the Decoder, epoch to the Demuxer, then seek target to the Demuxer). -/
theorem C1_seek_order_counterexample :
    (FileDecoder.seek ⟨0, false⟩ 5).2.2 ≠
      [Send.decoderSerial 1, Send.demuxerSerial 1, Send.demuxerSeek 5] := by
  decide

/-- C1 (amended): a seek sends, in this order, the seek target to the
Demuxer, then the new epoch (previous + 1) to the Demuxer, then the new
epoch to the Decoder; and the Demuxer reads the seek target before the
epoch — its serial channel is polled only in an iteration in which a seek
target arrived, and then the pending serial is consumed. -/
theorem C1_seek_command_order (c : FileDecoderCtl) (t : Int) (d : DemuxerState)
    (ch : DemuxChannels) (tb : Rational) (hs : ch.seekCh = []) :
    FileDecoder.seek c t =
      (⟨c.seek_serial + 1, c.paused⟩, c.seek_serial + 1,
       [Send.demuxerSeek t, Send.demuxerSerial (c.seek_serial + 1),
        Send.decoderSerial (c.seek_serial + 1)]) ∧
    (demuxer_poll_commands d ch tb).2.1.serialCh = ch.serialCh ∧
    (∀ t' ts v vs pch,
      (demuxer_poll_commands d ⟨pch, t' :: ts, v :: vs⟩ tb).1.seek_serial = v) := by
  refine ⟨rfl, ?_, ?_⟩
  · obtain ⟨pch, sch, serch⟩ := ch
    simp only at hs
    subst hs
    cases pch <;> rfl
  · intro t' ts v vs pch
    cases pch <;> rfl

theorem C1_seek_command_order_witness :
    FileDecoder.seek ⟨0, false⟩ 5 =
      (⟨1, false⟩, 1,
       [Send.demuxerSeek 5, Send.demuxerSerial 1, Send.decoderSerial 1]) ∧
    (demuxer_poll_commands ⟨0, false⟩ ⟨[], [], [7]⟩ ⟨1, 1⟩).2.1.serialCh = [7] :=
  ⟨(C1_seek_command_order ⟨0, false⟩ 5 ⟨0, false⟩ ⟨[], [], [7]⟩ ⟨1, 1⟩ rfl).1,
   (C1_seek_command_order ⟨0, false⟩ 5 ⟨0, false⟩ ⟨[], [], [7]⟩ ⟨1, 1⟩ rfl).2.1⟩

theorem presenter_frame_phase_fields (s : PresenterState)
    (q : List (Option VideoData)) (now : Nat) :
    (presenter_frame_phase s q now).1.seek_serial = s.seek_serial ∧
    (presenter_frame_phase s q now).1.player = s.player ∧
    (presenter_frame_phase s q now).2.2.sends = [] := by
  unfold presenter_frame_phase
  split
  · exact ⟨rfl, rfl, rfl⟩
  · split
    · exact ⟨rfl, rfl, rfl⟩
    · exact ⟨rfl, rfl, rfl⟩
    · unfold presenter_present
      split
      · exact ⟨rfl, rfl, rfl⟩
      · exact ⟨rfl, rfl, rfl⟩
    · unfold presenter_present
      split
      · exact ⟨rfl, rfl, rfl⟩
      · exact ⟨rfl, rfl, rfl⟩

theorem presenter_frame_phase_drawn (s : PresenterState)
    (q : List (Option VideoData)) (now : Nat) (f : VideoData)
    (h : (presenter_frame_phase s q now).2.2.drawn = some f) :
    f.serial = s.seek_serial := by
  unfold presenter_frame_phase at h
  split at h
  · exact Option.noConfusion h
  · split at h
    · exact Option.noConfusion h
    · exact Option.noConfusion h
    · unfold presenter_present at h
      split at h
      next vd rest hvd =>
        simp only [Option.some.injEq] at h
        subst h
        exact hvd
      next => exact Option.noConfusion h
    · unfold presenter_present at h
      split at h
      next vd hvd =>
        simp only [Option.some.injEq] at h
        subst h
        exact hvd
      next => exact Option.noConfusion h

theorem presenter_step_serial_mono (s : PresenterState) (ev : Option EventState)
    (now : Nat) (q : List (Option VideoData))
    (hinv : s.seek_serial ≤ s.player.seek_serial) :
    s.seek_serial ≤ (presenter_step s ev now q).1.seek_serial ∧
    (presenter_step s ev now q).1.seek_serial ≤
      (presenter_step s ev now q).1.player.seek_serial := by
  cases ev with
  | none =>
    have h := presenter_frame_phase_fields s q now
    show s.seek_serial ≤ (presenter_frame_phase s q now).1.seek_serial ∧
      (presenter_frame_phase s q now).1.seek_serial ≤
        (presenter_frame_phase s q now).1.player.seek_serial
    rw [h.1, h.2.1]
    exact ⟨le_refl _, hinv⟩
  | some e =>
    cases e with
    | Quit => exact ⟨le_refl _, hinv⟩
    | Pause => exact ⟨le_refl _, hinv⟩
    | Resize =>
      have h := presenter_frame_phase_fields s q now
      show s.seek_serial ≤ (presenter_frame_phase s q now).1.seek_serial ∧
        (presenter_frame_phase s q now).1.seek_serial ≤
          (presenter_frame_phase s q now).1.player.seek_serial
      rw [h.1, h.2.1]
      exact ⟨le_refl _, hinv⟩
    | SeekBackward =>
      refine ⟨?_, le_refl _⟩
      show s.seek_serial ≤ s.player.seek_serial + 1
      exact le_trans hinv (Nat.le_succ _)
    | SeekForward =>
      refine ⟨?_, le_refl _⟩
      show s.seek_serial ≤ s.player.seek_serial + 1
      exact le_trans hinv (Nat.le_succ _)

theorem presenter_step_drawn_serial (s : PresenterState) (ev : Option EventState)
    (now : Nat) (q : List (Option VideoData)) (f : VideoData)
    (h : (presenter_step s ev now q).2.2.drawn = some f) :
    f.serial = s.seek_serial := by
  cases ev with
  | none => exact presenter_frame_phase_drawn s q now f h
  | some e =>
    cases e with
    | Quit => exact Option.noConfusion h
    | Pause => exact Option.noConfusion h
    | Resize => exact presenter_frame_phase_drawn s q now f h
    | SeekBackward => exact Option.noConfusion h
    | SeekForward => exact Option.noConfusion h

theorem presenter_run_drawn_ge (ins : List (Option EventState × Nat)) :
    ∀ (s : PresenterState) (q : List (Option VideoData)),
      s.seek_serial ≤ s.player.seek_serial →
      ∀ f ∈ presenter_run s q ins, s.seek_serial ≤ f.serial := by
  induction ins with
  | nil => intro s q _ f hf; simp [presenter_run] at hf
  | cons p rest ih =>
    intro s q hinv f hf
    obtain ⟨ev, now⟩ := p
    rw [presenter_run, List.mem_append] at hf
    cases hf with
    | inl hf =>
      cases hd : (presenter_step s ev now q).2.2.drawn with
      | none => rw [hd] at hf; simp at hf
      | some g =>
        rw [hd] at hf
        simp only [List.mem_singleton] at hf
        subst hf
        exact le_of_eq (presenter_step_drawn_serial s ev now q f hd).symm
    | inr hf =>
      by_cases hq : (presenter_step s ev now q).2.2.quit
      · rw [if_pos hq] at hf; simp at hf
      · rw [if_neg hq] at hf
        have hm := presenter_step_serial_mono s ev now q hinv
        exact le_trans hm.1 (ih _ _ hm.2 f hf)

/-- C2: a frame whose serial differs from the presenter's current
seek_serial is discarded — the iteration draws nothing, sleeps nothing,
and only clears the pending item — and after a seek event returns serial
S = previous player serial + 1 (the seek iteration itself drawing
nothing), every frame drawn by the remaining run has serial at least S. -/
theorem C2_stale_frames_never_drawn (s : PresenterState) (f : VideoData)
    (tl : List (Option VideoData)) (now : Nat) (q : List (Option VideoData))
    (ins : List (Option EventState × Nat)) (e : EventState)
    (hf : f.serial ≠ s.seek_serial) (hp : s.video_data_item = none)
    (hgate : ¬ (s.paused ∧ ¬ s.need_update))
    (hinv : s.seek_serial ≤ s.player.seek_serial)
    (hev : e = .SeekForward ∨ e = .SeekBackward) :
    presenter_step s none now (some f :: tl) =
      ({ s with video_data_item := none }, tl, ⟨none, false, false, false, []⟩) ∧
    (presenter_step s (some e) now q).2.2.drawn = none ∧
    (presenter_step s (some e) now q).1.seek_serial = s.player.seek_serial + 1 ∧
    ∀ g ∈ presenter_run (presenter_step s (some e) now q).1
        (presenter_step s (some e) now q).2.1 ins,
      s.player.seek_serial + 1 ≤ g.serial := by
  have hstep1 : presenter_step s none now (some f :: tl) =
      ({ s with video_data_item := none }, tl, ⟨none, false, false, false, []⟩) := by
    show presenter_frame_phase s (some f :: tl) now = _
    unfold presenter_frame_phase
    rw [if_neg hgate, hp]
    show presenter_present s f tl now = _
    unfold presenter_present
    rw [if_neg hf]
  rcases hev with he | he <;> subst he <;>
    refine ⟨hstep1, rfl, rfl, ?_⟩ <;>
    · intro g hg
      exact presenter_run_drawn_ge ins _ _ (le_refl _) g hg

theorem C2_stale_frames_never_drawn_witness :
    presenter_step ⟨false, false, 0, 0, 0, ⟨0, false⟩, none⟩ none 0
        [some ⟨1, 5, 5⟩] =
      ({ paused := false, need_update := false, presentation_time := 0,
         last_pts := 0, seek_serial := 0, player := ⟨0, false⟩,
         video_data_item := none }, [], ⟨none, false, false, false, []⟩) ∧
    (presenter_step ⟨false, false, 0, 0, 0, ⟨0, false⟩, none⟩
        (some .SeekForward) 0 []).1.seek_serial = 1 :=
  ⟨(C2_stale_frames_never_drawn ⟨false, false, 0, 0, 0, ⟨0, false⟩, none⟩
      ⟨1, 5, 5⟩ [] 0 [] [] .SeekForward (by decide) rfl (by decide) (by decide)
      (Or.inl rfl)).1,
   (C2_stale_frames_never_drawn ⟨false, false, 0, 0, 0, ⟨0, false⟩, none⟩
      ⟨1, 5, 5⟩ [] 0 [] [] .SeekForward (by decide) rfl (by decide) (by decide)
      (Or.inl rfl)).2.2.1⟩

/-- C7: pause is controller-local — the presenter's Pause handling sends
nothing on any command channel, no presenter iteration ever sends on the
demuxer pause channel, the demuxer's paused flag is untouched while its
pause channel is empty, and an unpaused demuxer keeps pulling packets and
enqueueing them on the packet queue. -/
theorem C7_pause_controller_local (s : PresenterState) (now : Nat)
    (q : List (Option VideoData)) (ev : Option EventState) (b : Bool)
    (d : DemuxerState) (seekCh : List Int) (serialCh : List Nat)
    (tb : Rational) (idx pkt : Nat) (hpaused : d.paused = false) :
    (presenter_step s (some .Pause) now q).2.2.sends = [] ∧
    Send.demuxerPause b ∉ (presenter_step s ev now q).2.2.sends ∧
    (demuxer_poll_commands d ⟨[], seekCh, serialCh⟩ tb).1.paused = d.paused ∧
    demuxer_body d idx (some (idx, pkt)) =
      [DemuxAction.enqueuePacket d.seek_serial pkt] := by
  refine ⟨rfl, ?_, ?_, ?_⟩
  · cases ev with
    | none =>
      rw [show (presenter_step s none now q).2.2.sends = [] from
        (presenter_frame_phase_fields s q now).2.2]
      simp
    | some e =>
      cases e with
      | Quit => show Send.demuxerPause b ∉ ([] : List Send); simp
      | Pause => show Send.demuxerPause b ∉ ([] : List Send); simp
      | Resize =>
        rw [show (presenter_step s (some .Resize) now q).2.2.sends = [] from
          (presenter_frame_phase_fields s q now).2.2]
        simp
      | SeekBackward =>
        show Send.demuxerPause b ∉
          [Send.demuxerSeek (u64_to_i64 s.last_pts - seek_secs),
           Send.demuxerSerial (s.player.seek_serial + 1),
           Send.decoderSerial (s.player.seek_serial + 1)]
        simp
      | SeekForward =>
        show Send.demuxerPause b ∉
          [Send.demuxerSeek (u64_to_i64 s.last_pts + seek_secs),
           Send.demuxerSerial (s.player.seek_serial + 1),
           Send.decoderSerial (s.player.seek_serial + 1)]
        simp
  · cases seekCh with
    | nil => rfl
    | cons t ts =>
      cases serialCh with
      | nil => rfl
      | cons v vs => rfl
  · simp [demuxer_body, hpaused]

theorem C7_pause_controller_local_witness :
    (presenter_step ⟨false, false, 0, 0, 0, ⟨0, false⟩, none⟩ (some .Pause) 0
        []).2.2.sends = [] ∧
    demuxer_body ⟨0, false⟩ 0 (some (0, 9)) = [DemuxAction.enqueuePacket 0 9] :=
  ⟨(C7_pause_controller_local ⟨false, false, 0, 0, 0, ⟨0, false⟩, none⟩ 0 []
      none true ⟨0, false⟩ [] [] ⟨1, 1⟩ 0 9 rfl).1,
   (C7_pause_controller_local ⟨false, false, 0, 0, 0, ⟨0, false⟩, none⟩ 0 []
      none true ⟨0, false⟩ [] [] ⟨1, 1⟩ 0 9 rfl).2.2.2⟩
